import Mathlib

/-!
Verification of the TFTP packet codec (`src/packet/bytes.rs`, `src/packet/rq/wrq.rs`).

Bytes are modelled as `List Nat` (each element a byte value), Rust `String`s as
their UTF-8 byte lists, `CString` payloads as NUL-free byte lists.  Fallible
conversions (`TryFrom`, `CString::new`) return `Option`; every error path of the
Rust code produces `io::ErrorKind::InvalidInput`, so `none` stands for that error.
-/

namespace TFTP

/-- The five TFTP opcodes, as in `packet/opcode.rs`. -/
inductive Opcode
  | Rrq
  | Wrq
  | Data
  | Ack
  | Error
deriving DecidableEq

/-- Modelled from the spec: the numeric discriminants of `Opcode` (`Rrq=1, Wrq=2,
Data=3, Ack=4, Error=5`); the enum declaration itself is not under src/, only its
uses (`Opcode::Rrq as u16`) and the tests pinning these values. -/
def Opcode.toU16 : Opcode → Nat
  | .Rrq => 1
  | .Wrq => 2
  | .Data => 3
  | .Ack => 4
  | .Error => 5

/-- `impl TryFrom<u16> for Opcode` in `packet/bytes.rs`: a guard chain comparing
the input against each discriminant, `InvalidInput` otherwise. -/
def Opcode.tryFrom (val : Nat) : Option Opcode :=
  if val = Opcode.toU16 .Rrq then some .Rrq
  else if val = Opcode.toU16 .Wrq then some .Wrq
  else if val = Opcode.toU16 .Data then some .Data
  else if val = Opcode.toU16 .Ack then some .Ack
  else if val = Opcode.toU16 .Error then some .Error
  else none

/-- The three transfer modes, as matched in `packet/bytes.rs`. -/
inductive Mode
  | NetAscii
  | Octet
  | Mail
deriving DecidableEq

/-- The eight TFTP error codes, as converted in `packet/bytes.rs`. -/
inductive ErrorCode
  | NotDefined
  | FileNotFound
  | AccessViolation
  | DiskFull
  | IllegalOperation
  | UnknownTid
  | FileAlreadyExists
  | NoSuchUser
deriving DecidableEq

/-- Modelled from the spec: the numeric discriminants of `ErrorCode` (0–7 in
declaration order); the enum declaration is not under src/, only its uses
(`ErrorCode::NotDefined as u16`) and the tests pinning these values. -/
def ErrorCode.toU16 : ErrorCode → Nat
  | .NotDefined => 0
  | .FileNotFound => 1
  | .AccessViolation => 2
  | .DiskFull => 3
  | .IllegalOperation => 4
  | .UnknownTid => 5
  | .FileAlreadyExists => 6
  | .NoSuchUser => 7

/-- `impl TryFrom<u16> for ErrorCode` in `packet/bytes.rs`. -/
def ErrorCode.tryFrom (val : Nat) : Option ErrorCode :=
  if val = ErrorCode.toU16 .NotDefined then some .NotDefined
  else if val = ErrorCode.toU16 .FileNotFound then some .FileNotFound
  else if val = ErrorCode.toU16 .AccessViolation then some .AccessViolation
  else if val = ErrorCode.toU16 .DiskFull then some .DiskFull
  else if val = ErrorCode.toU16 .IllegalOperation then some .IllegalOperation
  else if val = ErrorCode.toU16 .UnknownTid then some .UnknownTid
  else if val = ErrorCode.toU16 .FileAlreadyExists then some .FileAlreadyExists
  else if val = ErrorCode.toU16 .NoSuchUser then some .NoSuchUser
  else none

/-- UTF-8 bytes of `"mail"`. -/
def strMail : List Nat := [109, 97, 105, 108]

/-- UTF-8 bytes of `"netascii"`. -/
def strNetascii : List Nat := [110, 101, 116, 97, 115, 99, 105, 105]

/-- UTF-8 bytes of `"octet"`. -/
def strOctet : List Nat := [111, 99, 116, 101, 116]

/-- `impl From<Mode> for String` in `packet/bytes.rs`, as UTF-8 bytes. -/
def Mode.toString : Mode → List Nat
  | .Mail => strMail
  | .NetAscii => strNetascii
  | .Octet => strOctet

/-- ASCII lower-casing of one byte, as `u8::make_ascii_lowercase`. -/
def lowerByte (b : Nat) : Nat :=
  if 65 ≤ b ∧ b ≤ 90 then b + 32 else b

/-- `String::make_ascii_lowercase`: bytewise ASCII lower-casing. -/
def lowerAscii (l : List Nat) : List Nat := l.map lowerByte

/-- `impl TryFrom<String> for Mode` in `packet/bytes.rs`: lower-case the string,
then match it against the three known mode names. -/
def Mode.tryFromString (s : List Nat) : Option Mode :=
  let t := lowerAscii s
  if t = strMail then some .Mail
  else if t = strNetascii then some .NetAscii
  else if t = strOctet then some .Octet
  else none

/-- Continuation-byte test for UTF-8 validation. -/
def utf8Cont (c : Nat) : Bool := 0x80 ≤ c && c ≤ 0xBF

/-- UTF-8 validity of a byte list, as checked by `String::from_utf8` /
`CString::into_string` in the Rust standard library. -/
def validUTF8 : List Nat → Bool
  | [] => true
  | b :: rest =>
    if b ≤ 0x7F then validUTF8 rest
    else
      match rest with
      | [] => false
      | c :: rest2 =>
        if 0xC2 ≤ b && b ≤ 0xDF then utf8Cont c && validUTF8 rest2
        else
          match rest2 with
          | [] => false
          | d :: rest3 =>
            if b = 0xE0 then (0xA0 ≤ c && c ≤ 0xBF) && utf8Cont d && validUTF8 rest3
            else if (0xE1 ≤ b && b ≤ 0xEC) || b = 0xEE || b = 0xEF then
              utf8Cont c && utf8Cont d && validUTF8 rest3
            else if b = 0xED then (0x80 ≤ c && c ≤ 0x9F) && utf8Cont d && validUTF8 rest3
            else
              match rest3 with
              | [] => false
              | e :: rest4 =>
                if b = 0xF0 then
                  (0x90 ≤ c && c ≤ 0xBF) && utf8Cont d && utf8Cont e && validUTF8 rest4
                else if 0xF1 ≤ b && b ≤ 0xF3 then
                  utf8Cont c && utf8Cont d && utf8Cont e && validUTF8 rest4
                else if b = 0xF4 then
                  (0x80 ≤ c && c ≤ 0x8F) && utf8Cont d && utf8Cont e && validUTF8 rest4
                else false

/-- `CString::new`: succeeds exactly when the bytes contain no NUL; the model
keeps the raw (terminator-free) bytes, matching `CString::into_bytes`. -/
def cstringNew (l : List Nat) : Option (List Nat) :=
  if 0 ∈ l then none else some l

/-- `CString::from_vec_unchecked` followed by reading the terminated bytes: the
NUL terminator is appended without any check (its precondition is that the input
is NUL-free). -/
def cstringFromVecUnchecked (l : List Nat) : List Nat := l ++ [0]

/-- `impl TryFrom<CString> for Mode` in `packet/bytes.rs`:
`String::from_utf8(s.into_bytes())`, then `Mode::try_from(String)`. -/
def Mode.tryFromCString (l : List Nat) : Option Mode :=
  if validUTF8 l then Mode.tryFromString l else none

/-- Modelled from the spec: `util::FirstNul::find_first_nul` (the `util` module is
not under src/) — §9 describes it as "the byte-splitting logic that locates a
terminator": the index of the first NUL byte, if any. -/
def findFirstNul : List Nat → Option Nat
  | [] => none
  | b :: rest => if b = 0 then some 0 else (findFirstNul rest).map (· + 1)

/-- The request packet `Rq`, with the fields constructed in `packet/bytes.rs`
(`Ok(Rq { filename, mode })`); the filename is a Rust `String`, modelled as its
UTF-8 bytes. -/
structure Rq where
  filename : List Nat
  mode : Mode
deriving DecidableEq

/-- `impl TryFrom<Vec<u8>> for Rq` in `packet/bytes.rs`: find the first NUL,
split one past it, `pop` the last byte of each half, parse the second half as a
`CString` then a `Mode`, the first half as a `CString` then a `String`. -/
def Rq.tryFrom (bytes : List Nat) : Option Rq :=
  match findFirstNul bytes with
  | none => none
  | some nul =>
    if nul + 1 > bytes.length then none
    else
      let modePart := (bytes.drop (nul + 1)).dropLast
      let fnPart := (bytes.take (nul + 1)).dropLast
      match cstringNew modePart with
      | none => none
      | some mbytes =>
        match Mode.tryFromCString mbytes with
        | none => none
        | some mode =>
          match cstringNew fnPart with
          | none => none
          | some fbytes =>
            if validUTF8 fbytes then some ⟨fbytes, mode⟩ else none

/-- `impl From<Rq> for Vec<u8>` in `packet/bytes.rs`: filename bytes, NUL, mode
text bytes, NUL. -/
def Rq.toBytes (rq : Rq) : List Nat :=
  rq.filename ++ [0] ++ Mode.toString rq.mode ++ [0]

/-- The write-request wrapper `Wrq(Rq)` from `packet/rq/wrq.rs`. -/
structure Wrq where
  rq : Rq
deriving DecidableEq

/-- `Wrq::new` from `packet/rq/wrq.rs`: wraps the filename and mode with no
validation whatsoever. -/
def Wrq.new (filename : List Nat) (mode : Mode) : Wrq :=
  ⟨⟨filename, mode⟩⟩

/-- `impl IntoBytes for Wrq`: delegates to the `Rq` encoding. Modelled from the
spec for the delegation step: `Rq`'s own `IntoBytes` impl (`packet/rq/mod.rs`) is
not under src/; §4.1 specifies the Request encoding it performs. -/
def Wrq.intoBytes (w : Wrq) : List Nat := Rq.toBytes w.rq

/-- `impl FromBytes for Wrq`: decodes an `Rq` and wraps it. Modelled from the
spec for the delegation step: `Rq`'s own `FromBytes` impl (`packet/rq/mod.rs`) is
not under src/; §4.1 specifies the Request decoding it performs. -/
def Wrq.fromBytes (bytes : List Nat) : Option Wrq :=
  (Rq.tryFrom bytes).map Wrq.mk

/-- One byte relates to its counterpart in a reference word when it is the same
byte or the upper-case form of a lower-case letter: `s` is a letter-casing of
`t` when the bytes are pointwise related. -/
def caseRel (a b : Nat) : Prop :=
  a = b ∨ (97 ≤ b ∧ b ≤ 122 ∧ a = b - 32)

/-- `s` is a letter-casing of the (lower-case) word `t`. -/
def isCasingOf (s t : List Nat) : Prop :=
  List.Forall₂ caseRel s t

theorem findFirstNul_append_nul (f r : List Nat) (h : 0 ∉ f) :
    findFirstNul (f ++ 0 :: r) = some f.length := by
  induction f with
  | nil => simp [findFirstNul]
  | cons a f ih =>
    have ha : a ≠ 0 := fun e => h (by simp [e])
    have h' : 0 ∉ f := fun hm => h (List.mem_cons_of_mem _ hm)
    simp [findFirstNul, ha, ih h']

theorem findFirstNul_some (l : List Nat) (n : Nat) (h : findFirstNul l = some n) :
    ∃ pre suf, l = pre ++ 0 :: suf ∧ pre.length = n ∧ 0 ∉ pre := by
  induction l generalizing n with
  | nil => simp [findFirstNul] at h
  | cons a l ih =>
    by_cases ha : a = 0
    · subst ha
      simp [findFirstNul] at h
      exact ⟨[], l, by simp, by simp [h], by simp⟩
    · simp only [findFirstNul, if_neg ha, Option.map_eq_some'] at h
      obtain ⟨m, hm, hmn⟩ := h
      obtain ⟨pre, suf, hl, hlen, hpre⟩ := ih m hm
      refine ⟨a :: pre, suf, by simp [hl], by simp [hlen, hmn], ?_⟩
      intro hz
      rcases List.mem_cons.mp hz with h0 | h0
      · exact ha h0.symm
      · exact hpre h0

theorem findFirstNul_lt (l : List Nat) (n : Nat) (h : findFirstNul l = some n) :
    n < l.length := by
  obtain ⟨pre, suf, rfl, hlen, -⟩ := findFirstNul_some l n h
  simp [List.length_append, ← hlen]

theorem mem_split_first (f : List Nat) (h : 0 ∈ f) :
    ∃ pre suf, f = pre ++ 0 :: suf ∧ 0 ∉ pre := by
  induction f with
  | nil => cases h
  | cons a l ih =>
    by_cases ha : a = 0
    · exact ⟨[], l, by simp [ha], by simp⟩
    · have h' : 0 ∈ l := by
        rcases List.mem_cons.mp h with h0 | h0
        · exact absurd h0.symm ha
        · exact h0
      obtain ⟨pre, suf, hl, hpre⟩ := ih h'
      refine ⟨a :: pre, suf, by simp [hl], ?_⟩
      intro hz
      rcases List.mem_cons.mp hz with h0 | h0
      · exact ha h0.symm
      · exact hpre h0

theorem take_len_succ_append (f r : List Nat) (x : Nat) :
    (f ++ x :: r).take (f.length + 1) = f ++ [x] := by
  induction f with
  | nil => simp
  | cons a l ih => simp [List.length_cons, List.take_succ_cons, ih]

theorem drop_len_succ_append (f r : List Nat) (x : Nat) :
    (f ++ x :: r).drop (f.length + 1) = r := by
  induction f with
  | nil => simp
  | cons a l ih => simp [List.length_cons, List.drop_succ_cons, ih]

theorem dropLast_append_single (l : List Nat) (x : Nat) : (l ++ [x]).dropLast = l := by
  simp

theorem mode_toString_no_nul (m : Mode) : 0 ∉ Mode.toString m := by
  cases m <;> decide

theorem mode_tryFromCString_toString (m : Mode) :
    Mode.tryFromCString (Mode.toString m) = some m := by
  cases m <;> rfl

theorem rq_encode_nul_filename_fails (f : List Nat) (m : Mode) (h : 0 ∈ f) :
    Rq.tryFrom (Rq.toBytes ⟨f, m⟩) = none := by
  obtain ⟨pre, suf, rfl, hpre⟩ := mem_split_first f h
  have hb : Rq.toBytes ⟨pre ++ 0 :: suf, m⟩
      = pre ++ 0 :: ((suf ++ 0 :: Mode.toString m) ++ [0]) := by
    simp [Rq.toBytes]
  rw [hb]
  have hn := findFirstNul_append_nul pre ((suf ++ 0 :: Mode.toString m) ++ [0]) hpre
  have hc : ¬ (pre.length + 1 > (pre ++ 0 :: ((suf ++ 0 :: Mode.toString m) ++ [0])).length) := by
    simp [List.length_append]
  simp only [Rq.tryFrom, hn]
  rw [if_neg hc, drop_len_succ_append]
  have hz : 0 ∈ suf ++ 0 :: Mode.toString m := by simp
  have hms : cstringNew ((suf ++ 0 :: Mode.toString m) ++ [0]).dropLast = none := by
    rw [dropLast_append_single]
    simp [cstringNew, hz]
  simp only [hms]

/-- Claim C1: for every `Rq` whose filename is non-empty and NUL-free (a Rust
`String`, hence valid UTF-8), decoding the encoded bytes returns the original
packet: `Rq::try_from(Vec::<u8>::from(rq)) == Ok(rq)`. -/
theorem rq_roundtrip (f : List Nat) (m : Mode) (_hne : f ≠ []) (hnul : 0 ∉ f)
    (hutf : validUTF8 f = true) :
    Rq.tryFrom (Rq.toBytes ⟨f, m⟩) = some ⟨f, m⟩ := by
  have hb : Rq.toBytes ⟨f, m⟩ = f ++ 0 :: (Mode.toString m ++ [0]) := by
    simp [Rq.toBytes]
  have hn : findFirstNul (f ++ 0 :: (Mode.toString m ++ [0])) = some f.length :=
    findFirstNul_append_nul _ _ hnul
  have hc : ¬ (f.length + 1 > (f ++ 0 :: (Mode.toString m ++ [0])).length) := by
    simp [List.length_append]
  rw [hb]
  simp only [Rq.tryFrom, hn]
  rw [if_neg hc, drop_len_succ_append, take_len_succ_append,
    dropLast_append_single (Mode.toString m) 0, dropLast_append_single f 0]
  have h1 : cstringNew (Mode.toString m) = some (Mode.toString m) := by
    simp [cstringNew, mode_toString_no_nul m]
  have h2 : cstringNew f = some f := by simp [cstringNew, hnul]
  simp only [h1, mode_tryFromCString_toString m, h2, hutf, if_true]

/-- Witness for C1: the round trip at filename "hi", mode Octet. -/
theorem rq_roundtrip_witness :
    Rq.tryFrom (Rq.toBytes ⟨[104, 105], Mode.Octet⟩) = some ⟨[104, 105], Mode.Octet⟩ :=
  rq_roundtrip [104, 105] Mode.Octet (by decide) (by decide) (by decide)

/-- Counterexample to C2 as stated: the bytes of `"a\0octetX"` carry no NUL
terminator for the mode (the single NUL is the filename terminator), yet
decoding succeeds with mode Octet — the decoder drops the last byte of the
mode region without checking that it is a NUL. -/
theorem rq_mode_unterminated_decodes :
    ([97, 0, 111, 99, 116, 101, 116, 88] : List Nat).count 0 = 1 ∧
    Rq.tryFrom [97, 0, 111, 99, 116, 101, 116, 88] = some ⟨[97], Mode.Octet⟩ :=
  ⟨rfl, rfl⟩

/-- Claim C2 (amended): decoding fails with InvalidInput when the input contains
no NUL byte at all; otherwise the decoder takes everything after the first NUL,
drops its final byte whatever it is, and fails when that mode region contains a
NUL, is not valid UTF-8, or does not case-insensitively match a known Mode, or
when the filename bytes are not valid UTF-8. -/
theorem rq_tryFrom_invalidInput (bytes : List Nat)
    (h : findFirstNul bytes = none ∨
      ∃ n, findFirstNul bytes = some n ∧
        (0 ∈ (bytes.drop (n + 1)).dropLast ∨
         Mode.tryFromCString ((bytes.drop (n + 1)).dropLast) = none ∨
         validUTF8 ((bytes.take (n + 1)).dropLast) = false)) :
    Rq.tryFrom bytes = none := by
  rcases h with h | ⟨n, hn, hcase⟩
  · simp [Rq.tryFrom, h]
  · have hc : ¬ (n + 1 > bytes.length) := by
      have := findFirstNul_lt bytes n hn
      omega
    simp only [Rq.tryFrom, hn]
    rw [if_neg hc]
    rcases hcase with hm | hm | hf
    · simp [cstringNew, hm]
    · by_cases hz : 0 ∈ (bytes.drop (n + 1)).dropLast
      · simp [cstringNew, hz]
      · simp [cstringNew, hz, hm]
    · by_cases hz : 0 ∈ (bytes.drop (n + 1)).dropLast
      · simp [cstringNew, hz]
      · cases hmode : Mode.tryFromCString ((bytes.drop (n + 1)).dropLast) with
        | none => simp [cstringNew, hz, hmode]
        | some mm =>
          by_cases hfz : 0 ∈ (bytes.take (n + 1)).dropLast
          · simp [cstringNew, hz, hmode, hfz]
          · simp [cstringNew, hz, hmode, hfz, hf]

/-- Witness for C2 (amended): an input without any NUL byte is rejected. -/
theorem rq_tryFrom_invalidInput_witness : Rq.tryFrom [1, 2, 3] = none :=
  rq_tryFrom_invalidInput [1, 2, 3] (Or.inl rfl)

/-- Claim C3: the well-formed option-carrying Request `"f\0octet\0k\0v\0"` is
rejected by the decoder (the option bytes leave a NUL inside what the decoder
treats as the mode region), contradicting the spec's option grammar. -/
theorem rq_rejects_options :
    Rq.tryFrom [102, 0, 111, 99, 116, 101, 116, 0, 107, 0, 118, 0] = none := rfl

/-- Counterexample to C4 as stated: the bytes of `"\0octet\0"` (empty filename)
decode successfully to an `Rq` with the empty filename. -/
theorem rq_empty_filename_decodes :
    Rq.tryFrom [0, 111, 99, 116, 101, 116, 0] = some ⟨[], Mode.Octet⟩ := rfl

/-- Claim C4 (amended): the decoder performs no emptiness check on the filename:
a Request whose byte sequence begins with the NUL terminator decodes
successfully to an `Rq` with the empty filename, for every mode. -/
theorem rq_decodes_empty_filename (m : Mode) :
    Rq.tryFrom (Rq.toBytes ⟨[], m⟩) = some ⟨[], m⟩ := by
  cases m <;> rfl

/-- Claim C5: every opcode round-trips through its u16 encoding, and every u16
outside the discriminant set (1 through 5), 0 and 6 included, is rejected. -/
theorem opcode_roundtrip_closed :
    (∀ op : Opcode, Opcode.tryFrom (Opcode.toU16 op) = some op) ∧
    (∀ v : Nat, v < 65536 → v ∉ ([1, 2, 3, 4, 5] : List Nat) → Opcode.tryFrom v = none) := by
  constructor
  · intro op; cases op <;> rfl
  · intro v _ hmem
    have h1 : v ≠ 1 := fun e => hmem (by simp [e])
    have h2 : v ≠ 2 := fun e => hmem (by simp [e])
    have h3 : v ≠ 3 := fun e => hmem (by simp [e])
    have h4 : v ≠ 4 := fun e => hmem (by simp [e])
    have h5 : v ≠ 5 := fun e => hmem (by simp [e])
    simp [Opcode.tryFrom, Opcode.toU16, h1, h2, h3, h4, h5]

/-- Witness for C5: round trip at Ack, rejection at 0 and 6. -/
theorem opcode_roundtrip_closed_witness :
    Opcode.tryFrom (Opcode.toU16 .Ack) = some .Ack ∧
    Opcode.tryFrom 0 = none ∧ Opcode.tryFrom 6 = none :=
  ⟨opcode_roundtrip_closed.1 .Ack,
   opcode_roundtrip_closed.2 0 (by decide) (by decide),
   opcode_roundtrip_closed.2 6 (by decide) (by decide)⟩

/-- Claim C7: every error code round-trips through its u16 encoding, and every
u16 value 8 or greater is rejected. -/
theorem errorcode_roundtrip_closed :
    (∀ e : ErrorCode, ErrorCode.tryFrom (ErrorCode.toU16 e) = some e) ∧
    (∀ v : Nat, v < 65536 → 8 ≤ v → ErrorCode.tryFrom v = none) := by
  constructor
  · intro e; cases e <;> rfl
  · intro v _ h8
    have hne : v ≠ 0 ∧ v ≠ 1 ∧ v ≠ 2 ∧ v ≠ 3 ∧ v ≠ 4 ∧ v ≠ 5 ∧ v ≠ 6 ∧ v ≠ 7 := by
      omega
    obtain ⟨e0, e1, e2, e3, e4, e5, e6, e7⟩ := hne
    simp [ErrorCode.tryFrom, ErrorCode.toU16, e0, e1, e2, e3, e4, e5, e6, e7]

/-- Witness for C7: round trip at DiskFull, rejection at 8. -/
theorem errorcode_roundtrip_closed_witness :
    ErrorCode.tryFrom (ErrorCode.toU16 .DiskFull) = some .DiskFull ∧
    ErrorCode.tryFrom 8 = none :=
  ⟨errorcode_roundtrip_closed.1 .DiskFull,
   errorcode_roundtrip_closed.2 8 (by decide) (by decide)⟩

/-- Claim C8: `"hi.txt\0netascii\0"` decodes to Rq{filename: "hi.txt", mode:
NetAscii}, and Rq{filename: "bye.txt", mode: Mail} encodes to
`"bye.txt\0mail\0"`. -/
theorem rq_concrete_examples :
    Rq.tryFrom [104, 105, 46, 116, 120, 116, 0, 110, 101, 116, 97, 115, 99, 105, 105, 0]
      = some ⟨[104, 105, 46, 116, 120, 116], Mode.NetAscii⟩ ∧
    Rq.toBytes ⟨[98, 121, 101, 46, 116, 120, 116], Mode.Mail⟩
      = [98, 121, 101, 46, 116, 120, 116, 0, 109, 97, 105, 108, 0] :=
  ⟨rfl, rfl⟩

/-- Claim C9: no Mode's canonical textual form contains a NUL byte, so the
precondition of the unchecked `CString` construction holds and the terminated
byte string contains exactly one NUL — the appended terminator. -/
theorem mode_cstring_safety (m : Mode) :
    0 ∉ Mode.toString m ∧ (cstringFromVecUnchecked (Mode.toString m)).count 0 = 1 := by
  cases m <;> exact ⟨by decide, by decide⟩

theorem lowerByte_of_caseRel {a b : Nat} (h : caseRel a b) (hb : 97 ≤ b ∧ b ≤ 122) :
    lowerByte a = b := by
  rcases h with rfl | ⟨h1, h2, h3⟩
  · unfold lowerByte
    rw [if_neg (by omega)]
  · subst h3
    unfold lowerByte
    rw [if_pos (by omega)]
    omega

theorem lowerAscii_eq_of_casing {s t : List Nat} (h : isCasingOf s t)
    (ht : ∀ b ∈ t, 97 ≤ b ∧ b ≤ 122) : lowerAscii s = t := by
  induction h with
  | nil => rfl
  | cons hab htail ih =>
    rename_i a b s' t'
    simp only [lowerAscii, List.map_cons]
    rw [lowerByte_of_caseRel hab (ht b (by simp))]
    exact congrArg _ (ih fun x hx => ht x (by simp [hx]))

theorem isCasingOf_lowerAscii (s : List Nat) : isCasingOf s (lowerAscii s) := by
  induction s with
  | nil => exact List.Forall₂.nil
  | cons a l ih =>
    refine List.Forall₂.cons ?_ ih
    unfold caseRel lowerByte
    by_cases h : 65 ≤ a ∧ a ≤ 90
    · rw [if_pos h]
      right
      omega
    · rw [if_neg h]
      left
      rfl

/-- Claim C6: Mode parsing is case-insensitive and closed — every letter-casing
of "mail", "netascii", "octet" parses to the matching variant, and every other
string is rejected. -/
theorem mode_parse_case_insensitive_closed :
    (∀ s, isCasingOf s strMail → Mode.tryFromString s = some Mode.Mail) ∧
    (∀ s, isCasingOf s strNetascii → Mode.tryFromString s = some Mode.NetAscii) ∧
    (∀ s, isCasingOf s strOctet → Mode.tryFromString s = some Mode.Octet) ∧
    (∀ s, ¬ isCasingOf s strMail → ¬ isCasingOf s strNetascii → ¬ isCasingOf s strOctet →
      Mode.tryFromString s = none) := by
  refine ⟨?_, ?_, ?_, ?_⟩
  · intro s hs
    have hl := lowerAscii_eq_of_casing hs (by decide)
    simp [Mode.tryFromString, hl]
  · intro s hs
    have hl := lowerAscii_eq_of_casing hs (by decide)
    simp [Mode.tryFromString, hl, strNetascii, strMail]
  · intro s hs
    have hl := lowerAscii_eq_of_casing hs (by decide)
    simp [Mode.tryFromString, hl, strOctet, strNetascii, strMail]
  · intro s h1 h2 h3
    have e1 : lowerAscii s ≠ strMail := fun e => h1 (e ▸ isCasingOf_lowerAscii s)
    have e2 : lowerAscii s ≠ strNetascii := fun e => h2 (e ▸ isCasingOf_lowerAscii s)
    have e3 : lowerAscii s ≠ strOctet := fun e => h3 (e ▸ isCasingOf_lowerAscii s)
    simp [Mode.tryFromString, e1, e2, e3]

/-- Witness for C6: "MaIL" parses to Mail; "x" (a casing of no mode name) is
rejected. -/
theorem mode_parse_case_insensitive_closed_witness :
    Mode.tryFromString [77, 97, 73, 76] = some Mode.Mail ∧
    Mode.tryFromString [120] = none := by
  constructor
  · refine mode_parse_case_insensitive_closed.1 [77, 97, 73, 76] ?_
    exact List.Forall₂.cons (Or.inr (by omega))
      (List.Forall₂.cons (Or.inl rfl)
        (List.Forall₂.cons (Or.inr (by omega))
          (List.Forall₂.cons (Or.inr (by omega)) List.Forall₂.nil)))
  · refine mode_parse_case_insensitive_closed.2.2.2 [120] ?_ ?_ ?_ <;>
      · intro h
        have := List.Forall₂.length_eq h
        simp [strMail, strNetascii, strOctet] at this

/-- Counterexample to C10 as stated: no filename containing an embedded NUL ever
produces a decodable byte string — decoding the `into_bytes` output of such a
`Wrq` always fails outright rather than yielding a packet with the filename
truncated at the first NUL. -/
theorem wrq_nul_roundtrip_never_decodes :
    ¬ ∃ (f : List Nat) (m : Mode) (w : Wrq), 0 ∈ f ∧
      Wrq.fromBytes (Wrq.intoBytes (Wrq.new f m)) = some w := by
  rintro ⟨f, m, w, hf, hw⟩
  have hfail := rq_encode_nul_filename_fails f m hf
  simp [Wrq.fromBytes, Wrq.intoBytes, Wrq.new, hfail] at hw

/-- Claim C10 (amended): `Wrq::new` performs no validation — for a filename with
an embedded NUL it succeeds, and decoding the bytes produced by `into_bytes`
then fails with InvalidInput: the round trip fails by erroring, not by yielding
a truncated packet. -/
theorem wrq_nul_roundtrip_errors (f : List Nat) (m : Mode) (h : 0 ∈ f) :
    Wrq.fromBytes (Wrq.intoBytes (Wrq.new f m)) = none := by
  have hfail := rq_encode_nul_filename_fails f m h
  simp [Wrq.fromBytes, Wrq.intoBytes, Wrq.new, hfail]

/-- Witness for C10 (amended): at filename "a\0b". -/
theorem wrq_nul_roundtrip_errors_witness :
    (0 ∈ ([97, 0, 98] : List Nat)) ∧
    Wrq.fromBytes (Wrq.intoBytes (Wrq.new [97, 0, 98] Mode.Octet)) = none :=
  ⟨by decide, wrq_nul_roundtrip_errors [97, 0, 98] Mode.Octet (by decide)⟩

end TFTP
